import Mathlib

/-!
Verification development for the Beam Go SDK synthetic source
(`sdks/go/pkg/beam/io/synthetic/source.go`).

The data model and operations below are shallow embeddings of the Go code:
`int64` fields become `Int`, `float64` becomes `Rat`, the `math/rand`
generators become explicit deterministic functions or byte streams, and
Go panics become `Except.error` results.
-/

/-- Embeds `offsetrange.Restriction`: a half-open interval of element
indices, with fields `Start` and `End` as in the Go struct. -/
structure Restriction where
  Start : Int
  End : Int
deriving DecidableEq, Repr

/-- Embeds `SourceConfig` (source.go lines 301-308).  `int64` fields are
`Int`; the `float64` field `HotKeyFraction` is `Rat`. -/
structure SourceConfig where
  NumElements : Int
  InitialSplits : Int
  KeySize : Int
  ValueSize : Int
  NumHotKeys : Int
  HotKeyFraction : Rat
deriving DecidableEq, Repr

/-- Membership of an index in a restriction's half-open interval. -/
def memR (x : Int) (r : Restriction) : Prop :=
  r.Start ≤ x ∧ x < r.End

instance (x : Int) (r : Restriction) : Decidable (memR x r) := by
  unfold memR; infer_instance

/-- The size of a restriction, `End - Start`. -/
def rSize (r : Restriction) : Int :=
  r.End - r.Start

/-- Contiguous list of restrictions starting at `a`, one per entry of the
size list `ss`. -/
def rangesFrom (a : Int) : List Nat → List Restriction
  | [] => []
  | s :: ss => ⟨a, a + s⟩ :: rangesFrom (a + s) ss

/-- The multiset of sub-range sizes for an even split of `N` elements into
`k` parts: `N % k` parts of size `N / k + 1` followed by the rest of size
`N / k`. -/
def splitSizes (N k : Nat) : List Nat :=
  List.replicate (N % k) (N / k + 1) ++ List.replicate (k - N % k) (N / k)

/-- Modelled from the spec: `offsetrange.Restriction.EvenSplits` is not
under `src/` (only its caller `sourceFn.SplitRestriction` is).  Per spec
§4.2 it produces an ordered sequence of sub-ranges that are pairwise
disjoint, cover the input range exactly, each have size ≥ 1, have sizes
differing by at most 1, and the number of sub-ranges is capped at the
number of elements. -/
def Restriction.EvenSplits (r : Restriction) (num : Int) : List Restriction :=
  let N : Nat := (r.End - r.Start).toNat
  let k : Nat := min num.toNat N
  rangesFrom r.Start (splitSizes N k)

/-- Embeds `sourceFn.CreateInitialRestriction` (source.go lines 96-101). -/
def sourceFn.CreateInitialRestriction (config : SourceConfig) : Restriction :=
  ⟨0, config.NumElements⟩

/-- Embeds `sourceFn.SplitRestriction` (source.go lines 107-109). -/
def sourceFn.SplitRestriction (config : SourceConfig) (rest : Restriction) :
    List Restriction :=
  rest.EvenSplits config.InitialSplits

/-- The initial splits produced for a config: `SplitRestriction` applied to
the initial restriction `[0, NumElements)`. -/
def initialSplitsOf (config : SourceConfig) : List Restriction :=
  sourceFn.SplitRestriction config (sourceFn.CreateInitialRestriction config)

/-- Byte-read failure of a generator, or the Go runtime panic raised by
evaluating `i % 0`. -/
inductive RunErr where
  | readFail
  | divByZero
deriving DecidableEq, Repr

/-- Modelled from the spec: the per-run generator (`fn.rng`, of the
interface type `randWrapper`, which is not under `src/`): an abstract
stream of bytes, `none` marking an entropy failure, together with the
position of the next unread byte. -/
structure Gen where
  bytes : Nat → Option Nat
  pos : Nat

/-- Reads `n` consecutive bytes of the stream `f` starting at `pos`. -/
def readBytes (f : Nat → Option Nat) (pos : Nat) : Nat → Option (List Nat)
  | 0 => some []
  | n + 1 =>
    match f pos, readBytes f (pos + 1) n with
    | some b, some bs => some (b :: bs)
    | _, _ => none

/-- Embeds `rng.Read(buf)` for a buffer of length `n`: fills the whole
buffer from the stream and advances it, or reports a read failure. -/
def Gen.read (g : Gen) (n : Nat) : Except RunErr (List Nat × Gen) :=
  match readBytes g.bytes g.pos n with
  | some bs => .ok (bs, ⟨g.bytes, g.pos + n⟩)
  | none => .error .readFail

/-- Modelled from the spec: the deterministic generator
(`rand.New(rand.NewSource(0))` reseeded via `generator.Seed`; Go
`math/rand` is not under `src/`).  `detFloat s` is the value
`generator.Float64()` returns right after `generator.Seed(s)`; `detRead s n`
is the content a `Read` into an `n`-byte buffer leaves right after
`generator.Seed(s)`.  Both are pure functions of the seed, since
`math/rand` is deterministic and its `Read` never fails. -/
structure RandSpec where
  detFloat : Int → Rat
  detRead : Int → Nat → List Nat
  detRead_length : ∀ s n, (detRead s n).length = n

/-- One emitted element: a key/value pair of byte slices. -/
structure KV where
  key : List Nat
  val : List Nat
deriving DecidableEq, Repr

/-- Embeds the body of `sourceFn.ProcessElement`'s loop for one claimed
index `i` (source.go lines 134-151): reseed the deterministic generator
with `i` and draw the decision sample; fill the key either from the
deterministic generator reseeded with `i % NumHotKeys` (hot-key branch; Go
panics with a division by zero when `NumHotKeys = 0`, embedded as
`RunErr.divByZero`) or from the per-run generator; then fill the value
from the per-run generator. -/
def genElement (R : RandSpec) (config : SourceConfig) (g : Gen) (i : Int) :
    Except RunErr (KV × Gen) :=
  if R.detFloat i < config.HotKeyFraction then
    if config.NumHotKeys = 0 then .error .divByZero
    else
      let key := R.detRead (Int.tmod i config.NumHotKeys) config.KeySize.toNat
      match g.read config.ValueSize.toNat with
      | .ok (val, g1) => .ok (⟨key, val⟩, g1)
      | .error e => .error e
  else
    match g.read config.KeySize.toNat with
    | .ok (key, g1) =>
      match g1.read config.ValueSize.toNat with
      | .ok (val, g2) => .ok (⟨key, val⟩, g2)
      | .error e => .error e
    | .error e => .error e

/-- The observable outcome of one `ProcessElement` run: the successfully
claimed indices in claim order, the emitted elements in emission order,
and the returned error, if any. -/
structure RunResult where
  claimed : List Int
  emitted : List (Int × KV)
  outcome : Except RunErr Unit

/-- The claim loop of `sourceFn.ProcessElement` (source.go lines 133-152):
starting at `i`, each iteration attempts `TryClaim i` (success iff
`i < limit`), generates the element, emits it and moves to `i + 1`; a
generation error returns immediately.  `fuel` bounds the recursion and is
instantiated so that it never expires before a claim fails. -/
def processLoop (R : RandSpec) (config : SourceConfig) (limit : Int) :
    Gen → Int → Nat → RunResult
  | _, _, 0 => ⟨[], [], .ok ()⟩
  | g, i, fuel + 1 =>
    if i < limit then
      match genElement R config g i with
      | .ok (kv, g1) =>
        let r := processLoop R config limit g1 (i + 1) fuel
        ⟨i :: r.claimed, (i, kv) :: r.emitted, r.outcome⟩
      | .error e => ⟨[i], [], .error e⟩
    else ⟨[], [], .ok ()⟩

/-- Modelled from the spec: the offset range tracker (§4.3; the packages
`offsetrange` and `sdf` are not under `src/`).  `rest` is the restriction
the tracker was created from; `limit` is the end of the still-owned
remainder (`limit = rest.End` when no dynamic split occurred,
`limit < rest.End` once the tail has been ceded); `TryClaim i` succeeds
iff `i < limit`. -/
structure Tracker where
  rest : Restriction
  limit : Int

/-- Embeds `sourceFn.ProcessElement` (source.go lines 131-154): loop from
the current restriction's `Start`, claiming, generating and emitting until
`TryClaim` fails or a generation error is returned. -/
def sourceFn.ProcessElement (R : RandSpec) (rt : Tracker)
    (config : SourceConfig) (g : Gen) : RunResult :=
  processLoop R config rt.limit g rt.rest.Start (rt.limit - rt.rest.Start).toNat

/-- The list `[a, a+1, ..., a+n-1]` of consecutive indices. -/
def intSeq (a : Int) (n : Nat) : List Int :=
  (List.range n).map (fun k : Nat => a + (k : Int))

/-- Embeds `SourceConfigBuilder` (source.go lines 165-167). -/
structure SourceConfigBuilder where
  cfg : SourceConfig
deriving DecidableEq, Repr

/-- Embeds `DefaultSourceConfig` (source.go lines 176-187). -/
def DefaultSourceConfig : SourceConfigBuilder :=
  ⟨⟨1, 1, 8, 8, 0, 0⟩⟩

/-- A heap of builders: Go's setters receive a pointer
`*SourceConfigBuilder`, modelled as an address into this heap. -/
def BHeap : Type := Nat → SourceConfigBuilder

/-- Embeds the setter `(*SourceConfigBuilder).NumElements` (source.go
lines 193-196): assigns the field through the receiver pointer and returns
the same pointer. -/
def SourceConfigBuilder.NumElements (h : BHeap) (b : Nat) (val : Int) : BHeap × Nat :=
  (fun a => if a = b then ⟨{ (h b).cfg with NumElements := val }⟩ else h a, b)

/-- Embeds the setter `(*SourceConfigBuilder).InitialSplits` (source.go
lines 212-215). -/
def SourceConfigBuilder.InitialSplits (h : BHeap) (b : Nat) (val : Int) : BHeap × Nat :=
  (fun a => if a = b then ⟨{ (h b).cfg with InitialSplits := val }⟩ else h a, b)

/-- Embeds the setter `(*SourceConfigBuilder).KeySize` (source.go lines
221-224). -/
def SourceConfigBuilder.KeySize (h : BHeap) (b : Nat) (val : Int) : BHeap × Nat :=
  (fun a => if a = b then ⟨{ (h b).cfg with KeySize := val }⟩ else h a, b)

/-- Embeds the setter `(*SourceConfigBuilder).ValueSize` (source.go lines
230-233). -/
def SourceConfigBuilder.ValueSize (h : BHeap) (b : Nat) (val : Int) : BHeap × Nat :=
  (fun a => if a = b then ⟨{ (h b).cfg with ValueSize := val }⟩ else h a, b)

/-- Embeds the setter `(*SourceConfigBuilder).NumHotKeys` (source.go lines
239-242). -/
def SourceConfigBuilder.NumHotKeys (h : BHeap) (b : Nat) (val : Int) : BHeap × Nat :=
  (fun a => if a = b then ⟨{ (h b).cfg with NumHotKeys := val }⟩ else h a, b)

/-- Embeds the setter `(*SourceConfigBuilder).HotKeyFraction` (source.go
lines 247-250). -/
def SourceConfigBuilder.HotKeyFraction (h : BHeap) (b : Nat) (val : Rat) : BHeap × Nat :=
  (fun a => if a = b then ⟨{ (h b).cfg with HotKeyFraction := val }⟩ else h a, b)

/-- The value interpolated for the `%v` verb of a `Build` panic message:
the argument Go passes to `fmt.Sprintf`, an `int64` or a `float64`. -/
inductive GotVal where
  | int (n : Int)
  | float (q : Rat)
deriving DecidableEq, Repr

/-- A `Build` panic: the format string and the value passed for `%v`. -/
structure BuildPanic where
  msg : String
  got : GotVal
deriving DecidableEq, Repr

/-- Embeds `SourceConfigBuilder.Build` (source.go lines 255-275), with Go
panics as `Except.error`.  The `%v` arguments of the last two messages are
the ones the source passes: line 269 interpolates `b.cfg.HotKeyFraction`
into the NumHotKeys message and line 272 interpolates `b.cfg.NumHotKeys`
into the HotKeyFraction message. -/
def SourceConfigBuilder.Build (b : SourceConfigBuilder) :
    Except BuildPanic SourceConfig :=
  if b.cfg.InitialSplits ≤ 0 then
    .error ⟨"SourceConfig.InitialSplits must be >= 1. Got: %v", .int b.cfg.InitialSplits⟩
  else if b.cfg.NumElements ≤ 0 then
    .error ⟨"SourceConfig.NumElements must be >= 1. Got: %v", .int b.cfg.NumElements⟩
  else if b.cfg.KeySize ≤ 0 then
    .error ⟨"SourceConfig.KeySize must be >= 1. Got: %v", .int b.cfg.KeySize⟩
  else if b.cfg.ValueSize ≤ 0 then
    .error ⟨"SourceConfig.ValueSize must be >= 1. Got: %v", .int b.cfg.ValueSize⟩
  else if b.cfg.NumHotKeys < 0 then
    .error ⟨"SourceConfig.NumHotKeys must be >= 0. Got: %v", .float b.cfg.HotKeyFraction⟩
  else if b.cfg.HotKeyFraction < 0 ∨ 1 < b.cfg.HotKeyFraction then
    .error ⟨"SourceConfig.HotKeyFraction must be a floating point number from 0 and 1. Got: %v", .int b.cfg.NumHotKeys⟩
  else .ok b.cfg

/-- A decoded JSON value appearing in a config document: an integer
literal, or a number with a fractional part (which Go rejects for `int64`
fields). -/
inductive JVal where
  | jint (n : Int)
  | jnum (q : Rat)
deriving DecidableEq, Repr

/-- One `"key": value` member of a config JSON document. -/
structure JField where
  key : String
  val : JVal
deriving DecidableEq, Repr

/-- Modelled from the spec: decoding one JSON member into a `SourceConfig`
(`encoding/json` with `DisallowUnknownFields` is not under `src/`).  The
six field tags of `SourceConfig` (source.go lines 302-307) are recognized;
an unknown key, or a fractional number for an `int64` field, is a decode
error (`none`). -/
def setField (cfg : SourceConfig) (f : JField) : Option SourceConfig :=
  if f.key = "num_records" then
    match f.val with
    | .jint n => some { cfg with NumElements := n }
    | _ => none
  else if f.key = "initial_splits" then
    match f.val with
    | .jint n => some { cfg with InitialSplits := n }
    | _ => none
  else if f.key = "key_size" then
    match f.val with
    | .jint n => some { cfg with KeySize := n }
    | _ => none
  else if f.key = "value_size" then
    match f.val with
    | .jint n => some { cfg with ValueSize := n }
    | _ => none
  else if f.key = "num_hot_keys" then
    match f.val with
    | .jint n => some { cfg with NumHotKeys := n }
    | _ => none
  else if f.key = "hot_key_fraction" then
    match f.val with
    | .jint n => some { cfg with HotKeyFraction := (n : Rat) }
    | .jnum q => some { cfg with HotKeyFraction := q }
  else none

/-- Decodes a whole document into an existing config, member by member:
fields present in the document overwrite the config, fields absent from it
keep their current value (the `json.Decoder.Decode(&b.cfg)` behavior). -/
def decodeInto (cfg : SourceConfig) : List JField → Option SourceConfig
  | [] => some cfg
  | f :: fs =>
    match setField cfg f with
    | some cfg1 => decodeInto cfg1 fs
    | none => none

/-- Embeds `SourceConfigBuilder.BuildFromJSON` (source.go lines 288-296):
decode the document into `b.cfg` with unknown fields disallowed, panicking
on a decode error, and return the decoded config. -/
def SourceConfigBuilder.BuildFromJSON (b : SourceConfigBuilder)
    (doc : List JField) : Except String SourceConfig :=
  match decodeInto b.cfg doc with
  | some cfg => .ok cfg
  | none => .error "Could not unmarshal SourceConfig: %v"

/-- The JSON keys of the five `int64` fields of `SourceConfig`. -/
def intFieldKeys : List String :=
  ["num_records", "initial_splits", "key_size", "value_size", "num_hot_keys"]

/-- A document member the decoder accepts: a known `int64` field tag with
an integer value, or the `hot_key_fraction` tag (a `float64` field, which
accepts any number). -/
def ValidField (f : JField) : Prop :=
  (f.key ∈ intFieldKeys ∧ ∃ n, f.val = JVal.jint n) ∨ f.key = "hot_key_fraction"

/-- A concrete deterministic-generator model used to evaluate the embedding
at concrete inputs: the decision sample is always `0` and the stream
seeded with `s` repeats the byte `s.toNat % 256`. -/
def constR : RandSpec where
  detFloat := fun _ => 0
  detRead := fun s n => List.replicate n (s.toNat % 256)
  detRead_length := by intro s n; simp

/-- A per-run generator stream that always succeeds, producing byte `b`. -/
def constGen (b : Nat) : Gen := ⟨fun _ => some b, 0⟩

/-- A per-run generator stream whose entropy source fails immediately. -/
def failGen : Gen := ⟨fun _ => none, 0⟩

/-- The pool of hot keys a config can produce: the key buffer the
deterministic generator yields for each seed `0, ..., NumHotKeys - 1`. -/
def hotKeyPool (R : RandSpec) (config : SourceConfig) : List (List Nat) :=
  (List.range config.NumHotKeys.toNat).map
    (fun j : Nat => R.detRead (j : Int) config.KeySize.toNat)

theorem rangesFrom_length (a : Int) (ss : List Nat) :
    (rangesFrom a ss).length = ss.length := by
  induction ss generalizing a with
  | nil => rfl
  | cons s ss ih => simp [rangesFrom, ih]

theorem rangesFrom_sizes (a : Int) (ss : List Nat) :
    ∀ r ∈ rangesFrom a ss, ∃ s ∈ ss, rSize r = (s : Int) := by
  induction ss generalizing a with
  | nil => intro r hr; simp [rangesFrom] at hr
  | cons s ss ih =>
    intro r hr
    simp only [rangesFrom, List.mem_cons] at hr
    rcases hr with rfl | hr
    · exact ⟨s, by simp, by simp [rSize]⟩
    · obtain ⟨t, ht, hts⟩ := ih (a + s) r hr
      exact ⟨t, by simp [ht], hts⟩

theorem rangesFrom_bounds (a : Int) (ss : List Nat) :
    ∀ r ∈ rangesFrom a ss, a ≤ r.Start ∧ r.End ≤ a + (ss.sum : Int) := by
  induction ss generalizing a with
  | nil => intro r hr; simp [rangesFrom] at hr
  | cons s ss ih =>
    intro r hr
    have hsum : (((s :: ss).sum : Nat) : Int) = (s : Int) + (ss.sum : Int) := by
      rw [List.sum_cons, Nat.cast_add]
    simp only [rangesFrom, List.mem_cons] at hr
    rcases hr with rfl | hr
    · refine ⟨le_refl a, ?_⟩
      simp only
      omega
    · obtain ⟨h1, h2⟩ := ih (a + s) r hr
      constructor
      · omega
      · omega

theorem rangesFrom_union (a : Int) (ss : List Nat) (x : Int) :
    (∃ r ∈ rangesFrom a ss, memR x r) ↔ (a ≤ x ∧ x < a + (ss.sum : Int)) := by
  induction ss generalizing a with
  | nil => simp [rangesFrom]
  | cons s ss ih =>
    have hsum : (((s :: ss).sum : Nat) : Int) = (s : Int) + (ss.sum : Int) := by
      rw [List.sum_cons, Nat.cast_add]
    simp only [rangesFrom, List.mem_cons]
    constructor
    · rintro ⟨r, (rfl | hr), hx⟩
      · simp only [memR] at hx
        omega
      · have := (ih (a + s)).mp ⟨r, hr, hx⟩
        omega
    · intro hx
      by_cases hcase : x < a + (s : Int)
      · exact ⟨⟨a, a + s⟩, Or.inl rfl, ⟨hx.1, hcase⟩⟩
      · have hrec : a + s ≤ x ∧ x < a + s + (ss.sum : Int) := by omega
        obtain ⟨r, hr, hxr⟩ := (ih (a + s)).mpr hrec
        exact ⟨r, Or.inr hr, hxr⟩

theorem rangesFrom_disjoint (a : Int) (ss : List Nat) :
    List.Pairwise (fun p q => ∀ x, ¬(memR x p ∧ memR x q)) (rangesFrom a ss) := by
  induction ss generalizing a with
  | nil => simp [rangesFrom]
  | cons s ss ih =>
    simp only [rangesFrom, List.pairwise_cons]
    constructor
    · intro r hr x hx
      obtain ⟨hx1, hx2⟩ := hx
      have hb := (rangesFrom_bounds (a + s) ss r hr).1
      simp only [memR] at hx1 hx2
      omega
    · exact ih (a + s)

theorem rangesFrom_chain (a : Int) (ss : List Nat) :
    List.Chain' (fun p q => p.End = q.Start) (rangesFrom a ss) := by
  induction ss generalizing a with
  | nil => simp [rangesFrom]
  | cons s ss ih =>
    cases ss with
    | nil => simp [rangesFrom]
    | cons t ts =>
      have hrec := ih (a + s)
      simp only [rangesFrom] at hrec ⊢
      exact List.chain'_cons.mpr ⟨rfl, hrec⟩

theorem splitSizes_sum (N k : Nat) (hk : 0 < k) : (splitSizes N k).sum = N := by
  have hmod : N % k < k := Nat.mod_lt _ hk
  have hdm := Nat.div_add_mod N k
  simp only [splitSizes, List.sum_append, List.sum_replicate, smul_eq_mul]
  have h1 : (k - N % k) * (N / k) = k * (N / k) - (N % k) * (N / k) := by
    rw [Nat.sub_mul]
  rw [h1]
  have h2 : (N % k) * (N / k) ≤ k * (N / k) :=
    Nat.mul_le_mul_right _ (le_of_lt hmod)
  calc N % k * (N / k + 1) + (k * (N / k) - N % k * (N / k))
      = N % k * (N / k) + N % k + (k * (N / k) - N % k * (N / k)) := by ring_nf
    _ = k * (N / k) + N % k := by omega
    _ = N := hdm

theorem splitSizes_mem (N k : Nat) :
    ∀ s ∈ splitSizes N k, s = N / k ∨ s = N / k + 1 := by
  intro s hs
  simp only [splitSizes, List.mem_append, List.mem_replicate] at hs
  rcases hs with ⟨_, rfl⟩ | ⟨_, rfl⟩
  · right; rfl
  · left; rfl

theorem splitSizes_length (N k : Nat) (hk : 0 < k) :
    (splitSizes N k).length = k := by
  have hmod : N % k < k := Nat.mod_lt _ hk
  simp only [splitSizes, List.length_append, List.length_replicate]
  omega

theorem splitSizes_pos (N k : Nat) (hk : 0 < k) (hkN : k ≤ N) :
    ∀ s ∈ splitSizes N k, 1 ≤ s := by
  intro s hs
  have hq : 1 ≤ N / k := (Nat.one_le_div_iff hk).mpr hkN
  rcases splitSizes_mem N k s hs with rfl | rfl <;> omega

theorem intSeq_succ (a : Int) (n : Nat) :
    intSeq a (n + 1) = a :: intSeq (a + 1) n := by
  unfold intSeq
  rw [List.range_succ_eq_map, List.map_cons, List.map_map]
  have hf : ((fun k : Nat => a + (k : Int)) ∘ Nat.succ) =
      (fun k : Nat => (a + 1) + (k : Int)) := by
    funext k
    simp only [Function.comp]
    push_cast
    ring
  rw [hf]
  norm_num

theorem intSeq_last (a : Int) (n : Nat) :
    intSeq a (n + 1) = intSeq a n ++ [a + n] := by
  unfold intSeq
  rw [List.range_succ, List.map_append]
  rfl

theorem intSeq_mem_iff (a x : Int) (n : Nat) :
    x ∈ intSeq a n ↔ a ≤ x ∧ x < a + n := by
  unfold intSeq
  simp only [List.mem_map, List.mem_range]
  constructor
  · rintro ⟨k, hk, rfl⟩
    omega
  · intro hx
    refine ⟨(x - a).toNat, by omega, by omega⟩

theorem intSeq_pairwise (a : Int) (n : Nat) :
    List.Pairwise (fun x y => x < y) (intSeq a n) := by
  unfold intSeq
  exact (List.pairwise_lt_range n).map _ (by intro p q h; omega)

theorem intSeq_nodup (a : Int) (n : Nat) : (intSeq a n).Nodup :=
  (intSeq_pairwise a n).imp (fun h => ne_of_lt h)

theorem readBytes_length (f : Nat → Option Nat) :
    ∀ (n p : Nat) (bs : List Nat), readBytes f p n = some bs → bs.length = n := by
  intro n
  induction n with
  | zero =>
    intro p bs h
    simp only [readBytes, Option.some_inj] at h
    rw [← h]
    rfl
  | succ n ih =>
    intro p bs h
    simp only [readBytes] at h
    cases hf : f p with
    | none => rw [hf] at h; simp at h
    | some b =>
      rw [hf] at h
      cases hr : readBytes f (p + 1) n with
      | none => rw [hr] at h; simp at h
      | some bs1 =>
        rw [hr] at h
        simp only [Option.some_inj] at h
        rw [← h]
        simp [ih (p + 1) bs1 hr]

theorem Gen.read_ok_length (g : Gen) (n : Nat) (bs : List Nat) (g1 : Gen)
    (h : g.read n = .ok (bs, g1)) : bs.length = n := by
  unfold Gen.read at h
  cases hr : readBytes g.bytes g.pos n with
  | none => rw [hr] at h; simp at h
  | some bs1 =>
    rw [hr] at h
    simp only [Except.ok.injEq, Prod.mk.injEq] at h
    rw [← h.1]
    exact readBytes_length g.bytes n g.pos bs1 hr

theorem genElement_ok_key_hot (R : RandSpec) (config : SourceConfig) (g : Gen)
    (i : Int) (kv : KV) (g1 : Gen)
    (hhot : R.detFloat i < config.HotKeyFraction) (hz : config.NumHotKeys ≠ 0)
    (h : genElement R config g i = .ok (kv, g1)) :
    kv.key = R.detRead (Int.tmod i config.NumHotKeys) config.KeySize.toNat := by
  unfold genElement at h
  rw [if_pos hhot, if_neg hz] at h
  cases hr : g.read config.ValueSize.toNat with
  | ok p =>
    obtain ⟨val, g2⟩ := p
    rw [hr] at h
    simp only [Except.ok.injEq, Prod.mk.injEq] at h
    rw [← h.1]
  | error e => rw [hr] at h; simp at h

theorem genElement_ok_lengths (R : RandSpec) (config : SourceConfig) (g : Gen)
    (i : Int) (kv : KV) (g1 : Gen) (h : genElement R config g i = .ok (kv, g1)) :
    kv.key.length = config.KeySize.toNat ∧
      kv.val.length = config.ValueSize.toNat := by
  unfold genElement at h
  by_cases hhot : R.detFloat i < config.HotKeyFraction
  · rw [if_pos hhot] at h
    by_cases hz : config.NumHotKeys = 0
    · rw [if_pos hz] at h; simp at h
    · rw [if_neg hz] at h
      cases hr : g.read config.ValueSize.toNat with
      | ok p =>
        obtain ⟨val, g2⟩ := p
        rw [hr] at h
        simp only [Except.ok.injEq, Prod.mk.injEq] at h
        rw [← h.1]
        exact ⟨R.detRead_length _ _, Gen.read_ok_length g _ val g2 hr⟩
      | error e => rw [hr] at h; simp at h
  · rw [if_neg hhot] at h
    cases hk : g.read config.KeySize.toNat with
    | ok p =>
      obtain ⟨key, gk⟩ := p
      rw [hk] at h
      have h2 : (match gk.read config.ValueSize.toNat with
          | Except.ok (val, g2) => Except.ok (⟨key, val⟩, g2)
          | Except.error e => (Except.error e : Except RunErr (KV × Gen))) =
          Except.ok (kv, g1) := h
      cases hv : gk.read config.ValueSize.toNat with
      | ok q =>
        obtain ⟨val, gv⟩ := q
        rw [hv] at h2
        simp only [Except.ok.injEq, Prod.mk.injEq] at h2
        rw [← h2.1]
        exact ⟨Gen.read_ok_length g _ key gk hk, Gen.read_ok_length gk _ val gv hv⟩
      | error e => rw [hv] at h2; simp at h2
    | error e => rw [hk] at h; simp at h

theorem processLoop_emitted_origin (R : RandSpec) (config : SourceConfig)
    (limit : Int) :
    ∀ (fuel : Nat) (g : Gen) (i j : Int) (kv : KV),
      (j, kv) ∈ (processLoop R config limit g i fuel).emitted →
      ∃ g1 g2, genElement R config g1 j = .ok (kv, g2) := by
  intro fuel
  induction fuel with
  | zero => intro g i j kv h; simp [processLoop] at h
  | succ fuel ih =>
    intro g i j kv h
    simp only [processLoop] at h
    by_cases hlt : i < limit
    · rw [if_pos hlt] at h
      cases hgen : genElement R config g i with
      | ok p =>
        obtain ⟨kv1, g1⟩ := p
        rw [hgen] at h
        simp only [List.mem_cons, Prod.mk.injEq] at h
        rcases h with ⟨rfl, rfl⟩ | h
        · exact ⟨g, g1, hgen⟩
        · exact ih g1 (i + 1) j kv h
      | error e => rw [hgen] at h; simp at h
    · rw [if_neg hlt] at h
      simp at h

theorem processLoop_struct (R : RandSpec) (config : SourceConfig) (limit : Int) :
    ∀ (fuel : Nat) (g : Gen) (i : Int),
      ∃ n m : Nat,
        (processLoop R config limit g i fuel).claimed = intSeq i n ∧
        (processLoop R config limit g i fuel).emitted.map Prod.fst = intSeq i m ∧
        (((processLoop R config limit g i fuel).outcome = .ok () ∧ m = n) ∨
          (∃ e, (processLoop R config limit g i fuel).outcome = .error e ∧
            n = m + 1)) := by
  intro fuel
  induction fuel with
  | zero =>
    intro g i
    refine ⟨0, 0, ?_, ?_, Or.inl ⟨rfl, rfl⟩⟩ <;> simp [processLoop, intSeq]
  | succ fuel ih =>
    intro g i
    by_cases hlt : i < limit
    · cases hgen : genElement R config g i with
      | ok p =>
        obtain ⟨kv1, g1⟩ := p
        obtain ⟨n, m, h1, h2, h3⟩ := ih g1 (i + 1)
        refine ⟨n + 1, m + 1, ?_, ?_, ?_⟩
        · simp only [processLoop, if_pos hlt, hgen]
          rw [intSeq_succ, h1]
        · simp only [processLoop, if_pos hlt, hgen, List.map_cons]
          rw [intSeq_succ, h2]
        · simp only [processLoop, if_pos hlt, hgen]
          rcases h3 with ⟨hok, rfl⟩ | ⟨e, herr, hn⟩
          · exact Or.inl ⟨hok, rfl⟩
          · exact Or.inr ⟨e, herr, by omega⟩
      | error e =>
        refine ⟨1, 0, ?_, ?_, Or.inr ⟨e, ?_, rfl⟩⟩ <;>
          simp [processLoop, if_pos hlt, hgen, intSeq, List.range_succ]
    · refine ⟨0, 0, ?_, ?_, Or.inl ⟨?_, rfl⟩⟩ <;>
        simp [processLoop, if_neg hlt, intSeq]

theorem initialSplitsOf_eq (config : SourceConfig) :
    initialSplitsOf config =
      rangesFrom 0 (splitSizes config.NumElements.toNat
        (min config.InitialSplits.toNat config.NumElements.toNat)) := by
  unfold initialSplitsOf sourceFn.SplitRestriction sourceFn.CreateInitialRestriction
    Restriction.EvenSplits
  simp

/-- C1: for every SourceConfig with `numElements = N ≥ 1` and
`initialSplits = S ≥ 1`, `SplitRestriction` applied to the range `[0, N)`
returns an ordered (contiguous, ascending) sequence of sub-ranges that are
pairwise disjoint, whose union is exactly `[0, N)`, each of size ≥ 1, with
any two sub-range sizes differing by at most 1; and if `S > N`, exactly
`N` sub-ranges of size 1 are returned. -/
theorem c1_split_restriction_even_split (config : SourceConfig)
    (hN : 1 ≤ config.NumElements) (hS : 1 ≤ config.InitialSplits) :
    List.Chain' (fun p q => p.End = q.Start) (initialSplitsOf config) ∧
    List.Pairwise (fun p q => ∀ x, ¬(memR x p ∧ memR x q))
      (initialSplitsOf config) ∧
    (∀ x : Int, (0 ≤ x ∧ x < config.NumElements) ↔
      ∃ r ∈ initialSplitsOf config, memR x r) ∧
    (∀ r ∈ initialSplitsOf config, 1 ≤ rSize r) ∧
    (∀ r1 ∈ initialSplitsOf config, ∀ r2 ∈ initialSplitsOf config,
      rSize r1 ≤ rSize r2 + 1) ∧
    (config.NumElements < config.InitialSplits →
      (initialSplitsOf config).length = config.NumElements.toNat ∧
      ∀ r ∈ initialSplitsOf config, rSize r = 1) := by
  have hkey := initialSplitsOf_eq config
  set N := config.NumElements.toNat with hNdef
  set k := min config.InitialSplits.toNat N with hkdef
  have hk0 : 0 < k := by omega
  have hkN : k ≤ N := min_le_right _ _
  have hN0 : 0 < N := by omega
  have hsum : (splitSizes N k).sum = N := splitSizes_sum N k hk0
  have hNcast : (N : Int) = config.NumElements := by omega
  rw [hkey]
  refine ⟨rangesFrom_chain 0 _, rangesFrom_disjoint 0 _, ?_, ?_, ?_, ?_⟩
  · intro x
    have hu := rangesFrom_union 0 (splitSizes N k) x
    rw [hsum] at hu
    rw [hu]
    omega
  · intro r hr
    obtain ⟨s, hs, hsize⟩ := rangesFrom_sizes 0 _ r hr
    have hpos := splitSizes_pos N k hk0 hkN s hs
    omega
  · intro r1 h1 r2 h2
    obtain ⟨s1, hs1, e1⟩ := rangesFrom_sizes 0 _ r1 h1
    obtain ⟨s2, hs2, e2⟩ := rangesFrom_sizes 0 _ r2 h2
    set q := N / k with hq
    have m1 : s1 = q ∨ s1 = q + 1 := splitSizes_mem N k s1 hs1
    have m2 : s2 = q ∨ s2 = q + 1 := splitSizes_mem N k s2 hs2
    rcases m1 with rfl | rfl <;> rcases m2 with rfl | rfl <;> omega
  · intro hlt
    have hkeq : k = N := by omega
    have hNN : splitSizes N N = List.replicate N 1 := by
      unfold splitSizes
      rw [Nat.mod_self, Nat.div_self hN0]
      simp
    constructor
    · rw [rangesFrom_length, splitSizes_length N k hk0, hkeq]
    · intro r hr
      obtain ⟨s, hs, hsize⟩ := rangesFrom_sizes 0 _ r hr
      rw [hkeq, hNN] at hs
      have hs1 := List.eq_of_mem_replicate hs
      omega

/-- Witness for C1 at the spec's capping example `N = 3, S = 10`: exactly
3 sub-ranges are produced. -/
theorem c1_split_restriction_even_split_witness :
    (initialSplitsOf ⟨3, 10, 8, 8, 0, 0⟩).length = (3 : Int).toNat :=
  ((c1_split_restriction_even_split ⟨3, 10, 8, 8, 0, 0⟩ (by decide)
    (by decide)).2.2.2.2.2 (by decide)).1

/-- C6: an element is emitted only for indices whose `TryClaim` succeeded,
and emission follows claim order: the claimed indices are the consecutive
sequence starting at the restriction's `Start`, strictly increasing, with
at most one emission per index. -/
theorem c6_emission_follows_claims (R : RandSpec) (rt : Tracker)
    (config : SourceConfig) (g : Gen) :
    (∀ p ∈ (sourceFn.ProcessElement R rt config g).emitted,
      p.1 ∈ (sourceFn.ProcessElement R rt config g).claimed) ∧
    (∃ n, (sourceFn.ProcessElement R rt config g).claimed =
      intSeq rt.rest.Start n) ∧
    List.Chain' (fun x y => x < y)
      (sourceFn.ProcessElement R rt config g).claimed ∧
    List.Chain' (fun x y => x < y)
      ((sourceFn.ProcessElement R rt config g).emitted.map Prod.fst) ∧
    ((sourceFn.ProcessElement R rt config g).emitted.map Prod.fst).Nodup := by
  obtain ⟨n, m, h1, h2, h3⟩ := processLoop_struct R config rt.limit
    ((rt.limit - rt.rest.Start).toNat) g rt.rest.Start
  simp only [sourceFn.ProcessElement]
  have hmn : m ≤ n := by
    rcases h3 with ⟨_, rfl⟩ | ⟨e, _, hn⟩ <;> omega
  refine ⟨?_, ⟨n, h1⟩, ?_, ?_, ?_⟩
  · intro p hp
    have hfst := List.mem_map_of_mem Prod.fst hp
    rw [h2, intSeq_mem_iff] at hfst
    rw [h1, intSeq_mem_iff]
    omega
  · rw [h1]; exact (intSeq_pairwise _ _).chain'
  · rw [h2]; exact (intSeq_pairwise _ _).chain'
  · rw [h2]; exact intSeq_nodup _ _

/-- Witness for C6: index 0 of a concrete run is a claimed index. -/
theorem c6_emission_follows_claims_witness :
    (0 : Int) ∈ (sourceFn.ProcessElement constR ⟨⟨0, 1⟩, 1⟩ ⟨1, 1, 2, 2, 0, 0⟩
      (constGen 5)).claimed :=
  (c6_emission_follows_claims constR ⟨⟨0, 1⟩, 1⟩ ⟨1, 1, 2, 2, 0, 0⟩
    (constGen 5)).1 ((0 : Int), (⟨[5, 5], [5, 5]⟩ : KV)) (by decide)

/-- C7 is false as stated: with a failing entropy source, index 0 is
claimed (its `TryClaim` succeeded) but the generation error prevents any
emission for it, so a claimed index is neither "fully generated and
emitted" nor "not attempted". -/
theorem c7_claimed_without_emission_counterexample :
    (0 : Int) ∈ (sourceFn.ProcessElement constR ⟨⟨0, 1⟩, 1⟩ ⟨1, 1, 8, 8, 0, 0⟩
        failGen).claimed ∧
    (sourceFn.ProcessElement constR ⟨⟨0, 1⟩, 1⟩ ⟨1, 1, 8, 8, 0, 0⟩
        failGen).emitted = [] ∧
    (sourceFn.ProcessElement constR ⟨⟨0, 1⟩, 1⟩ ⟨1, 1, 8, 8, 0, 0⟩
        failGen).outcome = .error .readFail :=
  ⟨by decide, rfl, rfl⟩

/-- C7 (amended): on a successful run every claimed index is fully
generated and emitted; on a generation failure the failing index is the
last claimed one, no element at all is emitted for it (never a partial
element), the error is returned, and no further claim is attempted. -/
theorem c7_amended_no_partial_emission (R : RandSpec) (rt : Tracker)
    (config : SourceConfig) (g : Gen) :
    ((sourceFn.ProcessElement R rt config g).outcome = .ok () →
      (sourceFn.ProcessElement R rt config g).emitted.map Prod.fst =
        (sourceFn.ProcessElement R rt config g).claimed) ∧
    (∀ e, (sourceFn.ProcessElement R rt config g).outcome = .error e →
      ∃ j, (sourceFn.ProcessElement R rt config g).claimed =
          (sourceFn.ProcessElement R rt config g).emitted.map Prod.fst ++ [j] ∧
        ∀ kv, (j, kv) ∉ (sourceFn.ProcessElement R rt config g).emitted) := by
  obtain ⟨n, m, h1, h2, h3⟩ := processLoop_struct R config rt.limit
    ((rt.limit - rt.rest.Start).toNat) g rt.rest.Start
  simp only [sourceFn.ProcessElement]
  constructor
  · intro hok
    rcases h3 with ⟨_, rfl⟩ | ⟨e, herr, hn⟩
    · rw [h1, h2]
    · rw [hok] at herr; simp at herr
  · intro e herr
    rcases h3 with ⟨hok, rfl⟩ | ⟨e1, herr1, hn⟩
    · rw [hok] at herr; simp at herr
    · subst hn
      refine ⟨rt.rest.Start + m, ?_, ?_⟩
      · rw [h1, h2, intSeq_last]
      · intro kv hmem
        have hin := List.mem_map_of_mem Prod.fst hmem
        rw [h2, intSeq_mem_iff] at hin
        omega

/-- Witness for C7 (amended): on a concrete successful run the emitted
indices coincide with the claimed indices. -/
theorem c7_amended_no_partial_emission_witness :
    (sourceFn.ProcessElement constR ⟨⟨0, 1⟩, 1⟩ ⟨1, 1, 2, 2, 0, 0⟩
        (constGen 7)).emitted.map Prod.fst =
      (sourceFn.ProcessElement constR ⟨⟨0, 1⟩, 1⟩ ⟨1, 1, 2, 2, 0, 0⟩
        (constGen 7)).claimed :=
  (c7_amended_no_partial_emission constR ⟨⟨0, 1⟩, 1⟩ ⟨1, 1, 2, 2, 0, 0⟩
    (constGen 7)).1 (by rfl)

/-- C8: every element emitted by `ProcessElement` has a key of length
exactly `KeySize` and a value of length exactly `ValueSize`. -/
theorem c8_emitted_lengths (R : RandSpec) (rt : Tracker)
    (config : SourceConfig) (g : Gen) (i : Int) (kv : KV)
    (hk : 1 ≤ config.KeySize) (hv : 1 ≤ config.ValueSize)
    (hmem : (i, kv) ∈ (sourceFn.ProcessElement R rt config g).emitted) :
    (kv.key.length : Int) = config.KeySize ∧
      (kv.val.length : Int) = config.ValueSize := by
  obtain ⟨g1, g2, hgen⟩ := processLoop_emitted_origin R config rt.limit
    ((rt.limit - rt.rest.Start).toNat) g rt.rest.Start i kv hmem
  obtain ⟨hklen, hvlen⟩ := genElement_ok_lengths R config g1 i kv g2 hgen
  omega

/-- Witness for C8 at a concrete run with `KeySize = ValueSize = 2`. -/
theorem c8_emitted_lengths_witness :
    (((⟨[5, 5], [5, 5]⟩ : KV).key.length : Int) = (2 : Int)) ∧
      (((⟨[5, 5], [5, 5]⟩ : KV).val.length : Int) = (2 : Int)) :=
  c8_emitted_lengths constR ⟨⟨0, 1⟩, 1⟩ ⟨1, 1, 2, 2, 0, 0⟩ (constGen 5) 0
    ⟨[5, 5], [5, 5]⟩ (by decide) (by decide) (by decide)

/-- C2: for a config with `numHotKeys > 0`, an index whose decision sample
falls below `hotKeyFraction` gets the same key in any two runs (regardless
of the per-run generators), the key lies in the pool of `numHotKeys` hot
keys, indices with equal `i mod numHotKeys` get equal keys, and when the
deterministic generator separates the `numHotKeys` seeds the pool holds
exactly `numHotKeys` distinct values. -/
theorem c2_hot_key_determinism (R : RandSpec) (config : SourceConfig)
    (rt1 rt2 : Tracker) (g1 g2 : Gen) (i : Int) (kv1 kv2 : KV)
    (hpos : 0 < config.NumHotKeys) (hi : 0 ≤ i)
    (hhot : R.detFloat i < config.HotKeyFraction)
    (h1 : (i, kv1) ∈ (sourceFn.ProcessElement R rt1 config g1).emitted)
    (h2 : (i, kv2) ∈ (sourceFn.ProcessElement R rt2 config g2).emitted) :
    kv1.key = kv2.key ∧
    kv1.key ∈ hotKeyPool R config ∧
    (hotKeyPool R config).length = config.NumHotKeys.toNat ∧
    (∀ j kvj, 0 ≤ j → R.detFloat j < config.HotKeyFraction →
      Int.tmod j config.NumHotKeys = Int.tmod i config.NumHotKeys →
      (j, kvj) ∈ (sourceFn.ProcessElement R rt1 config g1).emitted →
      kvj.key = kv1.key) ∧
    ((∀ j1 ∈ List.range config.NumHotKeys.toNat,
        ∀ j2 ∈ List.range config.NumHotKeys.toNat,
        R.detRead (j1 : Int) config.KeySize.toNat =
          R.detRead (j2 : Int) config.KeySize.toNat → j1 = j2) →
      (hotKeyPool R config).Nodup) := by
  have hz : config.NumHotKeys ≠ 0 := by omega
  have key1 : kv1.key =
      R.detRead (Int.tmod i config.NumHotKeys) config.KeySize.toNat := by
    obtain ⟨ga, gb, hgen⟩ := processLoop_emitted_origin R config rt1.limit
      ((rt1.limit - rt1.rest.Start).toNat) g1 rt1.rest.Start i kv1 h1
    exact genElement_ok_key_hot R config ga i kv1 gb hhot hz hgen
  have key2 : kv2.key =
      R.detRead (Int.tmod i config.NumHotKeys) config.KeySize.toNat := by
    obtain ⟨ga, gb, hgen⟩ := processLoop_emitted_origin R config rt2.limit
      ((rt2.limit - rt2.rest.Start).toNat) g2 rt2.rest.Start i kv2 h2
    exact genElement_ok_key_hot R config ga i kv2 gb hhot hz hgen
  have hm0 : 0 ≤ Int.tmod i config.NumHotKeys := Int.tmod_nonneg _ hi
  have hmlt : Int.tmod i config.NumHotKeys < config.NumHotKeys :=
    Int.tmod_lt_of_pos i hpos
  refine ⟨by rw [key1, key2], ?_, ?_, ?_, ?_⟩
  · rw [key1]
    unfold hotKeyPool
    refine List.mem_map.mpr ⟨(Int.tmod i config.NumHotKeys).toNat, ?_, ?_⟩
    · rw [List.mem_range]; omega
    · congr 1
      omega
  · unfold hotKeyPool
    simp
  · intro j kvj hj hjhot hjmod hjm
    obtain ⟨ga, gb, hgen⟩ := processLoop_emitted_origin R config rt1.limit
      ((rt1.limit - rt1.rest.Start).toNat) g1 rt1.rest.Start j kvj hjm
    have hkj := genElement_ok_key_hot R config ga j kvj gb hjhot hz hgen
    rw [hkj, hjmod, key1]
  · intro hinj
    unfold hotKeyPool
    exact List.Nodup.map_on
      (by intro x hx y hy hxy; exact hinj x hx y hy hxy)
      (List.nodup_range _)

/-- Witness for C2: two concrete runs with differently seeded per-run
generators produce the identical key for hot index 0. -/
theorem c2_hot_key_determinism_witness :
    (⟨[0], List.replicate 8 9⟩ : KV).key =
      (⟨[0], List.replicate 8 17⟩ : KV).key :=
  (c2_hot_key_determinism constR ⟨2, 1, 1, 8, 5, 1⟩ ⟨⟨0, 2⟩, 2⟩ ⟨⟨0, 2⟩, 2⟩
    (constGen 9) (constGen 17) 0 ⟨[0], List.replicate 8 9⟩
    ⟨[0], List.replicate 8 17⟩ (by decide) (by decide) (by decide)
    (by decide) (by decide)).1

/-- C4 is false on the code: with `numHotKeys = 0` and a positive
`hotKeyFraction`, a decision sample below the fraction sends the loop into
the hot-key branch, where Go evaluates `i % 0` and panics with a division
by zero; no key is filled from the per-run generator.  Here the claimed
index 0 produces the panic and nothing is emitted. -/
theorem c4_zero_hot_keys_hot_branch_panics :
    sourceFn.ProcessElement constR ⟨⟨0, 1⟩, 1⟩ ⟨1, 1, 8, 8, 0, 1⟩
      (constGen 0) = ⟨[0], [], .error .divByZero⟩ := rfl

/-- C5 is false on the code (swapped panic arguments): the NumHotKeys
panic message interpolates the HotKeyFraction value (line 269) and the
HotKeyFraction panic message interpolates the NumHotKeys value (line 272).
With `NumHotKeys = -1` the message reports `0` (the fraction), not `-1`;
with `HotKeyFraction = 2` the message reports `2` as an `int64`
NumHotKeys value, not the fraction. -/
theorem c5_swapped_panic_values :
    (SourceConfigBuilder.Build ⟨⟨1, 1, 8, 8, -1, 0⟩⟩ =
        .error ⟨"SourceConfig.NumHotKeys must be >= 0. Got: %v", .float 0⟩ ∧
      GotVal.float 0 ≠ GotVal.int (-1)) ∧
    (SourceConfigBuilder.Build ⟨⟨1, 1, 8, 8, 2, 2⟩⟩ =
        .error ⟨"SourceConfig.HotKeyFraction must be a floating point number from 0 and 1. Got: %v", .int 2⟩ ∧
      GotVal.int 2 ≠ GotVal.float 2) :=
  ⟨⟨rfl, by decide⟩, ⟨rfl, by decide⟩⟩

/-- C3 is false as stated: `BuildFromJSON` performs no bounds validation.
The document setting `num_records` to 0 decodes successfully and the
returned config violates the bound `numElements ≥ 1`. -/
theorem c3_unvalidated_config_counterexample :
    SourceConfigBuilder.BuildFromJSON DefaultSourceConfig
        [⟨"num_records", JVal.jint 0⟩] =
      .ok ⟨0, 1, 8, 8, 0, 0⟩ ∧ ¬(1 ≤ (0 : Int)) :=
  ⟨rfl, by decide⟩

theorem setField_isSome_iff (cfg : SourceConfig) (f : JField) :
    (setField cfg f).isSome ↔ ValidField f := by
  obtain ⟨key, val⟩ := f
  unfold setField ValidField intFieldKeys
  cases val with
  | jint n =>
    simp only
    split_ifs with h1 h2 h3 h4 h5 h6 <;> simp_all
  | jnum q =>
    simp only
    split_ifs with h1 h2 h3 h4 h5 h6 <;> simp_all

theorem decodeInto_ok_iff (doc : List JField) :
    ∀ cfg : SourceConfig,
      (decodeInto cfg doc).isSome ↔ ∀ f ∈ doc, ValidField f := by
  induction doc with
  | nil => intro cfg; simp [decodeInto]
  | cons f fs ih =>
    intro cfg
    simp only [decodeInto]
    cases hs : setField cfg f with
    | some cfg1 =>
      have hv : ValidField f := by
        rw [← setField_isSome_iff cfg f, hs]
        simp
      simp [List.forall_mem_cons, hv, ih cfg1]
    | none =>
      have hv : ¬ ValidField f := by
        rw [← setField_isSome_iff cfg f, hs]
        simp
      simp [List.forall_mem_cons, hv]

/-- C3 (amended): `BuildFromJSON` fails exactly when some member of the
document has an unknown key or a type-mismatched value; it performs none
of `Build`'s bounds validation, so any document whose members are all
known decodes successfully, whatever values it carries. -/
theorem c3_amended_decode_succeeds_iff_fields_known (b : SourceConfigBuilder)
    (doc : List JField) :
    (∃ c, SourceConfigBuilder.BuildFromJSON b doc = .ok c) ↔
      ∀ f ∈ doc, ValidField f := by
  unfold SourceConfigBuilder.BuildFromJSON
  rw [← decodeInto_ok_iff doc b.cfg]
  cases h : decodeInto b.cfg doc <;> simp

/-- C9 is false as stated: the setters assign through the receiver
pointer, so a second holder of the same builder observes the mutation.
After `NumElements(5)` on the builder at address 0, the config observed
through the pre-existing reference to that same builder changed from 1 to
5. -/
theorem c9_alias_observes_mutation_counterexample :
    ((SourceConfigBuilder.NumElements (fun _ => DefaultSourceConfig) 0 5).1
        0).cfg.NumElements ≠
      ((fun _ : Nat => DefaultSourceConfig) 0).cfg.NumElements := by
  decide

/-- C9 (amended): each setter mutates the builder in place through the
receiver pointer and returns that same pointer, so the update is visible
through every reference to the builder; builders at other addresses are
untouched. -/
theorem c9_amended_setters_mutate_in_place (h : BHeap) (b : Nat) (n : Int)
    (q : Rat) :
    ((SourceConfigBuilder.NumElements h b n).2 = b ∧
      ((SourceConfigBuilder.NumElements h b n).1 b).cfg.NumElements = n ∧
      ∀ a, a ≠ b → (SourceConfigBuilder.NumElements h b n).1 a = h a) ∧
    ((SourceConfigBuilder.InitialSplits h b n).2 = b ∧
      ((SourceConfigBuilder.InitialSplits h b n).1 b).cfg.InitialSplits = n ∧
      ∀ a, a ≠ b → (SourceConfigBuilder.InitialSplits h b n).1 a = h a) ∧
    ((SourceConfigBuilder.KeySize h b n).2 = b ∧
      ((SourceConfigBuilder.KeySize h b n).1 b).cfg.KeySize = n ∧
      ∀ a, a ≠ b → (SourceConfigBuilder.KeySize h b n).1 a = h a) ∧
    ((SourceConfigBuilder.ValueSize h b n).2 = b ∧
      ((SourceConfigBuilder.ValueSize h b n).1 b).cfg.ValueSize = n ∧
      ∀ a, a ≠ b → (SourceConfigBuilder.ValueSize h b n).1 a = h a) ∧
    ((SourceConfigBuilder.NumHotKeys h b n).2 = b ∧
      ((SourceConfigBuilder.NumHotKeys h b n).1 b).cfg.NumHotKeys = n ∧
      ∀ a, a ≠ b → (SourceConfigBuilder.NumHotKeys h b n).1 a = h a) ∧
    ((SourceConfigBuilder.HotKeyFraction h b q).2 = b ∧
      ((SourceConfigBuilder.HotKeyFraction h b q).1 b).cfg.HotKeyFraction = q ∧
      ∀ a, a ≠ b → (SourceConfigBuilder.HotKeyFraction h b q).1 a = h a) := by
  refine ⟨⟨rfl, ?_, ?_⟩, ⟨rfl, ?_, ?_⟩, ⟨rfl, ?_, ?_⟩, ⟨rfl, ?_, ?_⟩,
    ⟨rfl, ?_, ?_⟩, ⟨rfl, ?_, ?_⟩⟩
  · simp [SourceConfigBuilder.NumElements]
  · intro a ha; simp [SourceConfigBuilder.NumElements, ha]
  · simp [SourceConfigBuilder.InitialSplits]
  · intro a ha; simp [SourceConfigBuilder.InitialSplits, ha]
  · simp [SourceConfigBuilder.KeySize]
  · intro a ha; simp [SourceConfigBuilder.KeySize, ha]
  · simp [SourceConfigBuilder.ValueSize]
  · intro a ha; simp [SourceConfigBuilder.ValueSize, ha]
  · simp [SourceConfigBuilder.NumHotKeys]
  · intro a ha; simp [SourceConfigBuilder.NumHotKeys, ha]
  · simp [SourceConfigBuilder.HotKeyFraction]
  · intro a ha; simp [SourceConfigBuilder.HotKeyFraction, ha]

/-- Witness for C9 (amended): the builder at the untouched address 1 is
unchanged by a setter call on address 0. -/
theorem c9_amended_setters_mutate_in_place_witness :
    (SourceConfigBuilder.NumElements (fun _ => DefaultSourceConfig) 0 5).1 1 =
      DefaultSourceConfig :=
  ((c9_amended_setters_mutate_in_place (fun _ => DefaultSourceConfig) 0 5
    0).1.2.2) 1 (by decide)

theorem setField_preserves (cfg cfg1 : SourceConfig) (f : JField)
    (h : setField cfg f = some cfg1) :
    (f.key ≠ "num_records" → cfg1.NumElements = cfg.NumElements) ∧
    (f.key ≠ "initial_splits" → cfg1.InitialSplits = cfg.InitialSplits) ∧
    (f.key ≠ "key_size" → cfg1.KeySize = cfg.KeySize) ∧
    (f.key ≠ "value_size" → cfg1.ValueSize = cfg.ValueSize) ∧
    (f.key ≠ "num_hot_keys" → cfg1.NumHotKeys = cfg.NumHotKeys) ∧
    (f.key ≠ "hot_key_fraction" → cfg1.HotKeyFraction = cfg.HotKeyFraction) := by
  obtain ⟨key, val⟩ := f
  unfold setField at h
  split_ifs at h with h1 h2 h3 h4 h5 h6 <;> cases val <;>
    first
      | (simp only [Option.some_inj] at h
         subst h
         simp_all)
      | simp_all

theorem decodeInto_retains (doc : List JField) :
    ∀ cfg c : SourceConfig, decodeInto cfg doc = some c →
    ((∀ f ∈ doc, f.key ≠ "num_records") → c.NumElements = cfg.NumElements) ∧
    ((∀ f ∈ doc, f.key ≠ "initial_splits") →
      c.InitialSplits = cfg.InitialSplits) ∧
    ((∀ f ∈ doc, f.key ≠ "key_size") → c.KeySize = cfg.KeySize) ∧
    ((∀ f ∈ doc, f.key ≠ "value_size") → c.ValueSize = cfg.ValueSize) ∧
    ((∀ f ∈ doc, f.key ≠ "num_hot_keys") → c.NumHotKeys = cfg.NumHotKeys) ∧
    ((∀ f ∈ doc, f.key ≠ "hot_key_fraction") →
      c.HotKeyFraction = cfg.HotKeyFraction) := by
  induction doc with
  | nil =>
    intro cfg c h
    simp only [decodeInto, Option.some_inj] at h
    subst h
    exact ⟨fun _ => rfl, fun _ => rfl, fun _ => rfl, fun _ => rfl,
      fun _ => rfl, fun _ => rfl⟩
  | cons f fs ih =>
    intro cfg c h
    simp only [decodeInto] at h
    cases hs : setField cfg f with
    | none => rw [hs] at h; simp at h
    | some cfg1 =>
      rw [hs] at h
      obtain ⟨p1, p2, p3, p4, p5, p6⟩ := setField_preserves cfg cfg1 f hs
      obtain ⟨q1, q2, q3, q4, q5, q6⟩ := ih cfg1 c h
      refine ⟨?_, ?_, ?_, ?_, ?_, ?_⟩ <;> intro hall
      · rw [q1 (fun f1 hf1 => hall f1 (List.mem_cons_of_mem f hf1)),
          p1 (hall f (List.mem_cons_self f fs))]
      · rw [q2 (fun f1 hf1 => hall f1 (List.mem_cons_of_mem f hf1)),
          p2 (hall f (List.mem_cons_self f fs))]
      · rw [q3 (fun f1 hf1 => hall f1 (List.mem_cons_of_mem f hf1)),
          p3 (hall f (List.mem_cons_self f fs))]
      · rw [q4 (fun f1 hf1 => hall f1 (List.mem_cons_of_mem f hf1)),
          p4 (hall f (List.mem_cons_self f fs))]
      · rw [q5 (fun f1 hf1 => hall f1 (List.mem_cons_of_mem f hf1)),
          p5 (hall f (List.mem_cons_self f fs))]
      · rw [q6 (fun f1 hf1 => hall f1 (List.mem_cons_of_mem f hf1)),
          p6 (hall f (List.mem_cons_self f fs))]

/-- C10: `BuildFromJSON` decodes into the builder's existing config, so a
field absent from the document keeps the builder's current value; in
particular the empty document returns the default config unchanged. -/
theorem c10_decode_into_existing_config :
    (∀ (b : SourceConfigBuilder) (doc : List JField) (c : SourceConfig),
      SourceConfigBuilder.BuildFromJSON b doc = .ok c →
      ((∀ f ∈ doc, f.key ≠ "num_records") →
        c.NumElements = b.cfg.NumElements) ∧
      ((∀ f ∈ doc, f.key ≠ "initial_splits") →
        c.InitialSplits = b.cfg.InitialSplits) ∧
      ((∀ f ∈ doc, f.key ≠ "key_size") → c.KeySize = b.cfg.KeySize) ∧
      ((∀ f ∈ doc, f.key ≠ "value_size") → c.ValueSize = b.cfg.ValueSize) ∧
      ((∀ f ∈ doc, f.key ≠ "num_hot_keys") →
        c.NumHotKeys = b.cfg.NumHotKeys) ∧
      ((∀ f ∈ doc, f.key ≠ "hot_key_fraction") →
        c.HotKeyFraction = b.cfg.HotKeyFraction)) ∧
    SourceConfigBuilder.BuildFromJSON DefaultSourceConfig [] =
      .ok ⟨1, 1, 8, 8, 0, 0⟩ := by
  constructor
  · intro b doc c h
    have hd : decodeInto b.cfg doc = some c := by
      unfold SourceConfigBuilder.BuildFromJSON at h
      cases hdec : decodeInto b.cfg doc with
      | some c1 =>
        rw [hdec] at h
        simp only [Except.ok.injEq] at h
        rw [h]
      | none => rw [hdec] at h; simp at h
    exact decodeInto_retains doc b.cfg c hd
  · rfl

/-- Witness for C10: decoding a document that only sets `key_size` leaves
`NumElements` at the builder's default value 1. -/
theorem c10_decode_into_existing_config_witness :
    (⟨1, 1, 3, 8, 0, 0⟩ : SourceConfig).NumElements =
      DefaultSourceConfig.cfg.NumElements :=
  (c10_decode_into_existing_config.1 DefaultSourceConfig
    [⟨"key_size", JVal.jint 3⟩] ⟨1, 1, 3, 8, 0, 0⟩ rfl).1 (by decide)
